import Mathlib

/-!
Verification development for the duplicate-detection, hash-caching and
resolution subsystem of the `dl-organize` file organizer.

The Lean definitions below are a shallow embedding of the Python sources:

* `src/file_organizer/duplicate_resolver.py` — `FileInfo`, `analyze_file`,
  `analyze_file_from_cache`, `compare_files`, `resolve_duplicates`,
  `resolve_duplicates_with_cache`;
* `src/file_organizer/duplicate_detector.py` — `FileMetadata`,
  `DuplicateGroup`, `hash_file_with_cache`, `detect_duplicates`
  (size grouping, selective hashing, hash grouping);
* `src/file_organizer/hash_cache.py` — `CachedFile` and the
  `get_from_cache` / `save_to_cache` (INSERT OR REPLACE) operations,
  modelled as an association list keyed by `(file_path, folder)`;
* `src/file_organizer/file_sampler.py` — `FileSampler.should_sample`;
* `src/file_organizer/stage3.py` — `_find_cross_folder_duplicates`.

Modelling conventions: file sizes are `Nat`; modification times are `ℚ`
(Python floats compared only for equality and order); file contents are
abstracted by a hashing oracle `hashFn : String → String` standing for
`compute_file_hash` (xxh64 of the full file contents), which returns `""`
on a read failure exactly as the Python does.  Filesystem scanning is IO,
so scan results enter the model as explicit `FileMetadata` lists.  Video
metadata columns and the `last_checked` wall-clock column of the cache,
which no claim concerns, are omitted from the `CachedFile` record.
-/

/-- Lightweight metadata for a file (duplicate_detector.FileMetadata). -/
structure FileMetadata where
  path : String
  size : Nat
  mtime : ℚ
deriving DecidableEq, Repr

/-- A cached file entry (hash_cache.CachedFile); video metadata and
`last_checked` are omitted (no claim depends on them). -/
structure CachedFile where
  file_path : String
  folder : String
  file_hash : Option String
  hash_type : Option String
  sample_size : Option Nat
  file_size : Nat
  file_mtime : ℚ
deriving DecidableEq, Repr

/-- A group of duplicate files with the same hash
(duplicate_detector.DuplicateGroup). -/
structure DuplicateGroup where
  hash : String
  files : List String
  size : Nat
deriving DecidableEq, Repr

/-- Extended file information for resolution (duplicate_resolver.FileInfo). -/
structure FileInfo where
  path : String
  size : Nat
  mtime : ℚ
  depth : Nat
  has_keep : Bool
  keep_in_folder : Bool
  keep_ancestor_depth : Option Nat
deriving DecidableEq, Repr

/-- Boolean test that `needle` occurs at the start of `hay`. -/
def listStartsWith : List Char → List Char → Bool
  | [], _ => true
  | _ :: _, [] => false
  | a :: as, b :: bs => a == b && listStartsWith as bs

/-- Boolean substring test on character lists (Python `needle in hay`). -/
def containsSub (needle : List Char) : List Char → Bool
  | [] => needle.isEmpty
  | c :: t => listStartsWith needle (c :: t) || containsSub needle t

/-- Case-insensitive test for the substring `"keep"` (Python
`'keep' in s.lower()`). -/
def hasKeepStr (s : String) : Bool :=
  containsSub "keep".data (s.data.map Char.toLower)

/-- Split a character list on `/`, dropping empty components
(the component list of a POSIX path body). -/
def splitComps : List Char → List Char → List String
  | [], acc => if acc.isEmpty then [] else [String.mk acc.reverse]
  | c :: rest, acc =>
    if c = '/' then
      if acc.isEmpty then splitComps rest []
      else String.mk acc.reverse :: splitComps rest []
    else splitComps rest (c :: acc)

/-- The components of a path as returned by Python `pathlib.Path(p).parts`
for a normalized POSIX path: a leading `"/"` becomes the first component,
the rest is split on `/` with empty pieces dropped. -/
def pathParts (p : String) : List String :=
  (if listStartsWith "/".data p.data then ["/"] else []) ++ splitComps p.data []

/-- Resolution metadata shared by `analyze_file` and
`analyze_file_from_cache`: path depth, `has_keep`, `keep_in_folder` and
`keep_ancestor_depth` exactly as computed in duplicate_resolver.py
(the ancestor scan walks `Path(p).parent.parts` and stops at the first
part whose lowercase form contains `"keep"`, recording index + 1). -/
def analyzeMeta (file_path : String) : Nat × Bool × Bool × Option Nat :=
  let parts := pathParts file_path
  let depth := parts.length
  let has_keep := hasKeepStr file_path
  let parentParts := parts.dropLast
  if has_keep then
    match parentParts.findIdx? (fun part => hasKeepStr part) with
    | some i => (depth, true, true, some (i + 1))
    | none => (depth, true, false, none)
  else (depth, false, false, none)

/-- duplicate_resolver.analyze_file, with the `stat` call abstracted as a
total oracle `stat : path → (size, mtime)`. -/
def analyzeFile (stat : String → Nat × ℚ) (file_path : String) : FileInfo :=
  let m := analyzeMeta file_path
  { path := file_path
    size := (stat file_path).1
    mtime := (stat file_path).2
    depth := m.1
    has_keep := m.2.1
    keep_in_folder := m.2.2.1
    keep_ancestor_depth := m.2.2.2 }

/-- duplicate_resolver.analyze_file_from_cache: identical metadata scan, but
size and mtime come from the cached record. -/
def analyzeFileFromCache (file_path : String) (cached : CachedFile) : FileInfo :=
  let m := analyzeMeta file_path
  { path := file_path
    size := cached.file_size
    mtime := cached.file_mtime
    depth := m.1
    has_keep := m.2.1
    keep_in_folder := m.2.2.1
    keep_ancestor_depth := m.2.2.2 }

/-- The body of the both-have-keep block of compare_files: `some r` when
that block returns `r`, `none` when control falls through to the depth
tier.  When both files are under keep folders the Python compares the two
`keep_ancestor_depth` ints; `getD 0` renders that (analyze_file always
fills the field when `keep_in_folder` is set). -/
def compareKeepTie (f1 f2 : FileInfo) : Option Int :=
  if f1.keep_in_folder && !f2.keep_in_folder then some (-1)
  else if f2.keep_in_folder && !f1.keep_in_folder then some 1
  else if f1.keep_in_folder && f2.keep_in_folder then
    if f1.keep_ancestor_depth.getD 0 < f2.keep_ancestor_depth.getD 0 then some (-1)
    else if f2.keep_ancestor_depth.getD 0 < f1.keep_ancestor_depth.getD 0 then some 1
    else none
  else none

/-- The depth and mtime tiers of compare_files (Priorities 2 and 3). -/
def compareDepthMtime (f1 f2 : FileInfo) : Int :=
  if f1.depth > f2.depth then -1
  else if f2.depth > f1.depth then 1
  else if f1.mtime > f2.mtime then -1
  else if f2.mtime > f1.mtime then 1
  else 0

/-- duplicate_resolver.compare_files: -1 keeps the first file, 1 keeps the
second, 0 is an all-tier tie. -/
def compareFiles (f1 f2 : FileInfo) : Int :=
  if f1.has_keep && !f2.has_keep then -1
  else if f2.has_keep && !f1.has_keep then 1
  else if f1.has_keep && f2.has_keep then
    match compareKeepTie f1 f2 with
    | some r => r
    | none => compareDepthMtime f1 f2
  else compareDepthMtime f1 f2

/-- The best-file accumulation loop of resolve_duplicates:
`best = infos[0]; for fi in infos[1:]: if compare(best, fi) > 0: best = fi`. -/
def pickBest (best : FileInfo) : List FileInfo → FileInfo
  | [] => best
  | fi :: rest => pickBest (if compareFiles best fi > 0 then fi else best) rest

/-- duplicate_resolver.resolve_duplicates: pick the file to keep and list
the rest for deletion.  Empty input returns `(none, [])`; a singleton is
kept with nothing deleted. -/
def resolveDuplicates (stat : String → Nat × ℚ) (paths : List String) :
    Option String × List String :=
  match paths with
  | [] => (none, [])
  | [p] => (some p, [])
  | p :: rest =>
    let infos := (p :: rest).map (analyzeFile stat)
    let best := pickBest (analyzeFile stat p) (rest.map (analyzeFile stat))
    (some best.path, (infos.filter (fun f => f.path ≠ best.path)).map (fun f => f.path))

/-- duplicate_resolver.resolve_duplicates_with_cache: identical selection
loop, but per-file attributes come from `cache_lookup` when present, with
a `stat` fallback for paths missing from the cache. -/
def resolveDuplicatesWithCache (stat : String → Nat × ℚ)
    (cacheLookup : String → Option CachedFile) (paths : List String) :
    Option String × List String :=
  let analyze := fun q =>
    match cacheLookup q with
    | some c => analyzeFileFromCache q c
    | none => analyzeFile stat q
  match paths with
  | [] => (none, [])
  | [p] => (some p, [])
  | p :: rest =>
    let infos := (p :: rest).map analyze
    let best := pickBest (analyze p) (rest.map analyze)
    (some best.path, (infos.filter (fun f => f.path ≠ best.path)).map (fun f => f.path))

/-- Python truthiness of the `file_hash` column: `None` and `""` are falsy. -/
def hashTruthy : Option String → Bool
  | none => false
  | some h => h ≠ ""

/-- hash_cache.get_from_cache: point lookup keyed by (file_path, folder). -/
def getFromCache (cache : List CachedFile) (p fl : String) : Option CachedFile :=
  match cache with
  | [] => none
  | c :: rest => if c.file_path = p ∧ c.folder = fl then some c else getFromCache rest p fl

/-- hash_cache.save_to_cache: INSERT OR REPLACE keyed by
(file_path, folder) — replace the existing row or append a new one. -/
def saveToCache (cache : List CachedFile) (r : CachedFile) : List CachedFile :=
  match cache with
  | [] => [r]
  | c :: rest =>
    if c.file_path = r.file_path ∧ c.folder = r.folder then r :: rest
    else c :: saveToCache rest r

/-- The metadata-only record written by the pre-cache pass of
detect_duplicates (`file_hash=None`, `hash_type=None`). -/
def blankRec (fm : FileMetadata) (folder : String) : CachedFile :=
  { file_path := fm.path, folder := folder, file_hash := none, hash_type := none
    sample_size := none, file_size := fm.size, file_mtime := fm.mtime }

/-- The record written by hash_file_with_cache after computing a hash
(`hash_type='full'`). -/
def computedRec (fm : FileMetadata) (folder : String) (h : String) : CachedFile :=
  { file_path := fm.path, folder := folder, file_hash := some h, hash_type := some "full"
    sample_size := none, file_size := fm.size, file_mtime := fm.mtime }

/-- Outcome of hash_file_with_cache: a cache hit, a freshly computed hash,
or a failure (compute_file_hash returned `""`). -/
inductive HashOutcome where
  | hit (h : String)
  | computed (h : String)
  | failed
deriving DecidableEq, Repr

/-- duplicate_detector.hash_file_with_cache: reuse the cached hash when the
record exists, its size and mtime equal the scanned values and it holds a
hash; otherwise run `hashFn` (compute_file_hash), and on success upsert a
`hash_type='full'` record.  On failure (`""`) nothing is written. -/
def hashFileWithCache (hashFn : String → String) (fm : FileMetadata)
    (folder : String) (cache : List CachedFile) : HashOutcome × List CachedFile :=
  let hitRec :=
    match getFromCache cache fm.path folder with
    | some c =>
      if c.file_size = fm.size ∧ c.file_mtime = fm.mtime ∧ hashTruthy c.file_hash = true
      then some c else none
    | none => none
  match hitRec with
  | some c => (HashOutcome.hit (c.file_hash.getD ""), cache)
  | none =>
    let h := hashFn fm.path
    if h = "" then (HashOutcome.failed, cache)
    else (HashOutcome.computed h, saveToCache cache (computedRec fm folder h))

/-- One step of the pre-cache pass of detect_duplicates: upsert a hash-less
record unless a record with matching size and mtime already exists. -/
def precacheStep (folder : String) (cache : List CachedFile) (fm : FileMetadata) :
    List CachedFile :=
  match getFromCache cache fm.path folder with
  | some c =>
    if c.file_size = fm.size ∧ c.file_mtime = fm.mtime then cache
    else saveToCache cache (blankRec fm folder)
  | none => saveToCache cache (blankRec fm folder)

/-- duplicate_detector.group_by_size, one insertion: append the file to its
size group, creating the group at the end on first sight of the size
(Python dict insertion order). -/
def addToGroups (gs : List (Nat × List FileMetadata)) (f : FileMetadata) :
    List (Nat × List FileMetadata) :=
  match gs with
  | [] => [(f.size, [f])]
  | (s, l) :: rest =>
    if s = f.size then (s, l ++ [f]) :: rest
    else (s, l) :: addToGroups rest f

/-- duplicate_detector.group_by_size: group files by exact size. -/
def groupBySize (files : List FileMetadata) : List (Nat × List FileMetadata) :=
  files.foldl addToGroups []

/-- The files passed to the hashing phase of detect_duplicates: members of
size groups with two or more files, in group-then-scan order. -/
def filesToHash (files : List FileMetadata) : List FileMetadata :=
  ((groupBySize files).filter (fun g => 2 ≤ g.2.length)).bind (fun g => g.2)

/-- Append a value to the keyed group list, creating the key at the end on
first sight (Python `dict` / `defaultdict(list)` insertion order). -/
def upsertAppend {α : Type} (key : String) (v : α) :
    List (String × List α) → List (String × List α)
  | [] => [(key, [v])]
  | (k, l) :: rest =>
    if k = key then (k, l ++ [v]) :: rest
    else (k, l) :: upsertAppend key v rest

/-- Mutable state of the hashing loop of detect_duplicates: the hash
groups, the evolving cache, and the `files_hashed` / `cache_hits` /
skipped counters. -/
structure DetectState where
  hashGroups : List (String × List (String × Nat))
  cache : List CachedFile
  filesHashed : Nat
  cacheHits : Nat
  skipped : Nat
deriving DecidableEq, Repr

/-- One iteration of the hashing loop of detect_duplicates: resolve the
file's hash via the cache; on failure bump the skipped counter, otherwise
append `(path, size)` to the hash group. -/
def hashStep (hashFn : String → String) (folder : String)
    (st : DetectState) (fm : FileMetadata) : DetectState :=
  match hashFileWithCache hashFn fm folder st.cache with
  | (HashOutcome.hit h, c) =>
    { st with cache := c, cacheHits := st.cacheHits + 1
              hashGroups := upsertAppend h (fm.path, fm.size) st.hashGroups }
  | (HashOutcome.computed h, c) =>
    { st with cache := c, filesHashed := st.filesHashed + 1
              hashGroups := upsertAppend h (fm.path, fm.size) st.hashGroups }
  | (HashOutcome.failed, c) =>
    { st with cache := c, skipped := st.skipped + 1 }

/-- The pre-cache pass of detect_duplicates: upsert every scanned file
into the store with a null hash unless a record with matching size and
mtime already exists. -/
def detectPrecache (folder : String) (cache : List CachedFile)
    (files : List FileMetadata) : List CachedFile :=
  files.foldl (precacheStep folder) cache

/-- The hashing loop of detect_duplicates over the size-collision files,
starting from empty hash groups, the pre-cached store and zeroed
counters. -/
def detectLoop (hashFn : String → String) (folder : String)
    (cache : List CachedFile) (files : List FileMetadata) : DetectState :=
  (filesToHash files).foldl (hashStep hashFn folder)
    ⟨[], detectPrecache folder cache files, 0, 0, 0⟩

/-- Phase 4 of detect_duplicates: every hash group with two or more
members becomes a DuplicateGroup (the group's size is the first member's
recorded size). -/
def detectGroupsOf (st : DetectState) : List DuplicateGroup :=
  (st.hashGroups.filter (fun g => 2 ≤ g.2.length)).map (fun g =>
    { hash := g.1, files := g.2.map (fun pr => pr.1)
      size := (g.2.map (fun pr => pr.2)).headD 0 })

/-- duplicate_detector.detect_duplicates on a completed scan: pre-cache all
scanned files, hash only the size-collision groups, group the results by
hash, and emit every hash group with two or more members. -/
def detectDuplicates (hashFn : String → String) (folder : String)
    (cache : List CachedFile) (files : List FileMetadata) :
    List DuplicateGroup × DetectState :=
  if files.isEmpty then ([], ⟨[], cache, 0, 0, 0⟩)
  else (detectGroupsOf (detectLoop hashFn folder cache files),
    detectLoop hashFn folder cache files)

/-- file_sampler.FileSampler default threshold: 20 MiB. -/
def samplerDefaultThreshold : Nat := 20 * 1024 * 1024

/-- file_sampler.FileSampler.should_sample: sample iff
`file_size >= threshold`. -/
def shouldSample (threshold file_size : Nat) : Bool :=
  file_size ≥ threshold

/-- hash_cache.get_all_files: all cached records carrying a folder label. -/
def getAllForLabel (cache : List CachedFile) (fl : String) : List CachedFile :=
  cache.filter (fun r => r.folder = fl)

/-- stage3 cross-folder size index, one insertion: append the record to
the input or output list of its size bucket (defaultdict insertion
order). -/
def addCF (isInput : Bool) (gs : List (Nat × List CachedFile × List CachedFile))
    (f : CachedFile) : List (Nat × List CachedFile × List CachedFile) :=
  match gs with
  | [] => [(f.file_size, if isInput then ([f], []) else ([], [f]))]
  | (s, inp, out) :: rest =>
    if s = f.file_size then
      (if isInput then (s, inp ++ [f], out) else (s, inp, out ++ [f])) :: rest
    else (s, inp, out) :: addCF isInput rest f

/-- stage3 cross-folder size index: input records are indexed first, then
output records, into per-size (input list, output list) buckets. -/
def cfSizeGroups (cache : List CachedFile) :
    List (Nat × List CachedFile × List CachedFile) :=
  (getAllForLabel cache "output").foldl (addCF false)
    ((getAllForLabel cache "input").foldl (addCF true) [])

/-- stage3 phase 2: for sizes present in both folders, every record still
lacking a truthy hash is queued for hashing, inputs before outputs. -/
def cfFilesToHash (cache : List CachedFile) : List (CachedFile × String) :=
  (cfSizeGroups cache).bind (fun g =>
    if g.2.1 ≠ [] ∧ g.2.2 ≠ [] then
      (g.2.1.filter (fun fi => !hashTruthy fi.file_hash)).map (fun fi => (fi, "input")) ++
      (g.2.2.filter (fun fi => !hashTruthy fi.file_hash)).map (fun fi => (fi, "output"))
    else [])

/-- stage3 hashing pass: each queued record whose path still exists is fed
to hash_file_with_cache with the record's own cached size and mtime. -/
def cfHashedCache (hashFn : String → String) (pathExists : String → Bool)
    (cache : List CachedFile) : List CachedFile :=
  (cfFilesToHash cache).foldl (fun c pr =>
    if pathExists pr.1.file_path then
      (hashFileWithCache hashFn ⟨pr.1.file_path, pr.1.file_size, pr.1.file_mtime⟩ pr.2 c).2
    else c) cache

/-- stage3 phase 3: group the records carrying a truthy hash by hash. -/
def cfHashGroupsOf (allFiles : List CachedFile) : List (String × List CachedFile) :=
  allFiles.foldl (fun hg fi =>
    if hashTruthy fi.file_hash then upsertAppend (fi.file_hash.getD "") fi hg else hg) []

/-- stage3 phase 4: emit the hash groups whose folder set contains both
`input` and `output` (the group's size is the first member's size). -/
def cfCrossGroups (hashGroups : List (String × List CachedFile)) :
    List DuplicateGroup :=
  (hashGroups.filter (fun g =>
      g.2.any (fun f => f.folder = "input") && g.2.any (fun f => f.folder = "output"))).map
    (fun g =>
      { hash := g.1, files := g.2.map (fun f => f.file_path)
        size := (g.2.map (fun f => f.file_size)).headD 0 })

/-- stage3._find_cross_folder_duplicates: index the cached records of both
labels by size; for sizes present on both sides hash every record still
lacking a hash (skipping paths that no longer exist, and feeding
`hash_file_with_cache` the record's own cached size and mtime); reload
from the cache when anything was hashed; group records with truthy hashes
by hash; and emit the groups whose folder set contains both `input` and
`output`.  Returns the groups and the final cache. -/
def findCrossFolderDuplicates (hashFn : String → String)
    (pathExists : String → Bool) (cache : List CachedFile) :
    List DuplicateGroup × List CachedFile :=
  let cache2 := cfHashedCache hashFn pathExists cache
  let inputFiles2 := if (cfFilesToHash cache).isEmpty
    then getAllForLabel cache "input" else getAllForLabel cache2 "input"
  let outputFiles2 := if (cfFilesToHash cache).isEmpty
    then getAllForLabel cache "output" else getAllForLabel cache2 "output"
  (cfCrossGroups (cfHashGroupsOf (inputFiles2 ++ outputFiles2)), cache2)

/-! Basic lemmas about the cache association list. -/

theorem getFromCache_saveToCache (cache : List CachedFile) (r : CachedFile)
    (p fl : String) :
    getFromCache (saveToCache cache r) p fl =
      if r.file_path = p ∧ r.folder = fl then some r else getFromCache cache p fl := by
  induction cache with
  | nil => simp [saveToCache, getFromCache]
  | cons c rest ih =>
    by_cases hc : c.file_path = r.file_path ∧ c.folder = r.folder
    · by_cases hr : r.file_path = p ∧ r.folder = fl
      · simp [saveToCache, hc, getFromCache, hr]
      · have hcp : ¬(c.file_path = p ∧ c.folder = fl) := by
          rintro ⟨h1, h2⟩
          exact hr ⟨hc.1 ▸ h1, hc.2 ▸ h2⟩
        simp [saveToCache, hc, getFromCache, hr, hcp]
    · by_cases hcp : c.file_path = p ∧ c.folder = fl
      · have hr : ¬(r.file_path = p ∧ r.folder = fl) := by
          rintro ⟨h1, h2⟩
          exact hc ⟨hcp.1.trans h1.symm, hcp.2.trans h2.symm⟩
        have hr' : ¬(p = r.file_path ∧ fl = r.folder) := by
          rintro ⟨h1, h2⟩
          exact hr ⟨h1.symm, h2.symm⟩
        simp [saveToCache, hc, getFromCache, hcp, hr, hr']
      · simp [saveToCache, hc, getFromCache, hcp, ih]

theorem hashFileWithCache_other (hashFn : String → String) (fm : FileMetadata)
    (folder : String) (cache : List CachedFile) (p fl : String) (hne : fm.path ≠ p) :
    getFromCache (hashFileWithCache hashFn fm folder cache).2 p fl =
      getFromCache cache p fl := by
  unfold hashFileWithCache
  cases hrec : getFromCache cache fm.path folder with
  | none =>
    by_cases hh : hashFn fm.path = ""
    · simp [hh]
    · simp [hh, getFromCache_saveToCache, computedRec, hne]
  | some c =>
    by_cases hcond : c.file_size = fm.size ∧ c.file_mtime = fm.mtime ∧
        hashTruthy c.file_hash = true
    · simp [hcond]
    · by_cases hh : hashFn fm.path = ""
      · simp [hcond, hh]
      · simp [hcond, hh, getFromCache_saveToCache, computedRec, hne]

theorem precacheStep_other (folder : String) (cache : List CachedFile)
    (fm : FileMetadata) (p fl : String) (hne : fm.path ≠ p) :
    getFromCache (precacheStep folder cache fm) p fl = getFromCache cache p fl := by
  unfold precacheStep
  cases hrec : getFromCache cache fm.path folder with
  | none => simp [getFromCache_saveToCache, blankRec, hne]
  | some c =>
    by_cases hcond : c.file_size = fm.size ∧ c.file_mtime = fm.mtime
    · simp [hcond]
    · simp [hcond, getFromCache_saveToCache, blankRec, hne]

/-- C10: resolve_duplicates and resolve_duplicates_with_cache both return
`(None, [])` on an empty group and `(p, [])` on a one-element group `[p]`,
without raising, even though DuplicateGroups normally have two or more
members. -/
theorem c10_empty_and_singleton_groups :
    (∀ stat : String → Nat × ℚ, resolveDuplicates stat [] = (none, [])) ∧
    (∀ (stat : String → Nat × ℚ) (p : String), resolveDuplicates stat [p] = (some p, [])) ∧
    (∀ (stat : String → Nat × ℚ) (lookup : String → Option CachedFile),
      resolveDuplicatesWithCache stat lookup [] = (none, [])) ∧
    (∀ (stat : String → Nat × ℚ) (lookup : String → Option CachedFile) (p : String),
      resolveDuplicatesWithCache stat lookup [p] = (some p, [])) := by
  refine ⟨fun _ => rfl, fun _ _ => rfl, fun _ _ => rfl, fun _ _ _ => rfl⟩

/-- C5: the code contradicts the claim (and its own test-suite): for a
26214400-byte file — above the 20 MiB default sampling threshold, so
`FileSampler.should_sample` answers `true` — a cache-missing hash
resolution still computes the hash from a full read of the contents
(`hashFn`, standing for compute_file_hash's whole-file loop) and records
`hash_type='full'` with no sample size; the detector never consults the
sampler. -/
theorem c5_detector_full_hash_above_threshold :
    shouldSample samplerDefaultThreshold 26214400 = true ∧
    hashFileWithCache (fun _ => "hFull") ⟨"/data/big.bin", 26214400, 0⟩ "input" [] =
      (HashOutcome.computed "hFull",
       [⟨"/data/big.bin", "input", some "hFull", some "full", none, 26214400, 0⟩]) := by
  exact ⟨rfl, by decide⟩

/-- C3: for a cached record holding a hash, hash_file_with_cache reuses
that hash if and only if the record's size equals the file's current size
and the record's mtime matches the current mtime within tolerance 0 — a
tolerance of at most 0.001 seconds (the code compares mtimes with exact
equality); otherwise, when the read succeeds, the hash is recomputed and
the record overwritten with the new hash. -/
theorem c3_cache_hit_iff_size_mtime_match (hashFn : String → String)
    (fm : FileMetadata) (folder : String) (cache : List CachedFile) (c : CachedFile)
    (hrec : getFromCache cache fm.path folder = some c)
    (hhash : hashTruthy c.file_hash = true) :
    ((hashFileWithCache hashFn fm folder cache =
        (HashOutcome.hit (c.file_hash.getD ""), cache)) ↔
      (c.file_size = fm.size ∧ |c.file_mtime - fm.mtime| ≤ 0)) ∧
    ((0 : ℚ) ≤ 1 / 1000) ∧
    (¬(c.file_size = fm.size ∧ |c.file_mtime - fm.mtime| ≤ 0) →
      hashFn fm.path ≠ "" →
      hashFileWithCache hashFn fm folder cache =
        (HashOutcome.computed (hashFn fm.path),
         saveToCache cache (computedRec fm folder (hashFn fm.path)))) := by
  have habs : (|c.file_mtime - fm.mtime| ≤ 0) ↔ c.file_mtime = fm.mtime := by
    rw [abs_nonpos_iff, sub_eq_zero]
  refine ⟨?_, by norm_num, ?_⟩
  · by_cases hcond : c.file_size = fm.size ∧ c.file_mtime = fm.mtime
    · constructor
      · intro _
        exact ⟨hcond.1, habs.mpr hcond.2⟩
      · intro _
        simp [hashFileWithCache, hrec, hcond.1, hcond.2, hhash]
    · constructor
      · intro heq
        exfalso
        have hcond' : ¬(c.file_size = fm.size ∧ c.file_mtime = fm.mtime ∧
            hashTruthy c.file_hash = true) := by
          rintro ⟨h1, h2, _⟩
          exact hcond ⟨h1, h2⟩
        by_cases hh : hashFn fm.path = ""
        · rw [hashFileWithCache] at heq
          simp [hrec, hcond', hh] at heq
        · rw [hashFileWithCache] at heq
          simp [hrec, hcond', hh] at heq
      · rintro ⟨h1, h2⟩
        exact absurd ⟨h1, habs.mp h2⟩ hcond
  · intro hcond hh
    have hcond' : ¬(c.file_size = fm.size ∧ c.file_mtime = fm.mtime ∧
        hashTruthy c.file_hash = true) := by
      rintro ⟨h1, h2, _⟩
      exact hcond ⟨h1, habs.mpr h2⟩
    simp [hashFileWithCache, hrec, hcond', hh]

/-- Witness for C3 at a concrete record and file: the record
`(/v/a.bin, input, hash hx, size 500, mtime 7)` and current metadata
`(500, 7)` satisfy the hypotheses, and the theorem applies. -/
theorem c3_witness :
    (getFromCache [⟨"/v/a.bin", "input", some "hx", some "full", none, 500, 7⟩]
        "/v/a.bin" "input" =
      some ⟨"/v/a.bin", "input", some "hx", some "full", none, 500, 7⟩) ∧
    (hashTruthy (some "hx") = true) ∧
    (((hashFileWithCache (fun _ => "hy") ⟨"/v/a.bin", 500, 7⟩ "input"
          [⟨"/v/a.bin", "input", some "hx", some "full", none, 500, 7⟩] =
        (HashOutcome.hit ((some "hx").getD ""),
         [⟨"/v/a.bin", "input", some "hx", some "full", none, 500, 7⟩])) ↔
      ((500 : Nat) = 500 ∧ |(7 : ℚ) - 7| ≤ 0)) ∧
    ((0 : ℚ) ≤ 1 / 1000) ∧
    (¬((500 : Nat) = 500 ∧ |(7 : ℚ) - 7| ≤ 0) →
      (fun _ : String => "hy") "/v/a.bin" ≠ "" →
      hashFileWithCache (fun _ => "hy") ⟨"/v/a.bin", 500, 7⟩ "input"
          [⟨"/v/a.bin", "input", some "hx", some "full", none, 500, 7⟩] =
        (HashOutcome.computed ((fun _ : String => "hy") "/v/a.bin"),
         saveToCache [⟨"/v/a.bin", "input", some "hx", some "full", none, 500, 7⟩]
           (computedRec ⟨"/v/a.bin", 500, 7⟩ "input"
             ((fun _ : String => "hy") "/v/a.bin"))))) :=
  ⟨by decide, by decide,
   c3_cache_hit_iff_size_mtime_match (fun _ => "hy") ⟨"/v/a.bin", 500, 7⟩ "input"
     [⟨"/v/a.bin", "input", some "hx", some "full", none, 500, 7⟩]
     ⟨"/v/a.bin", "input", some "hx", some "full", none, 500, 7⟩
     (by decide) (by decide)⟩

/-! Lemmas about the resolver. -/

theorem analyzeFile_path (stat : String → Nat × ℚ) (p : String) :
    (analyzeFile stat p).path = p := rfl

theorem pickBest_mem (b : FileInfo) (l : List FileInfo) : pickBest b l ∈ b :: l := by
  induction l generalizing b with
  | nil => simp [pickBest]
  | cons fi rest ih =>
    rw [pickBest]
    by_cases hc : compareFiles b fi > 0
    · rw [if_pos hc]
      exact List.mem_cons_of_mem _ (ih fi)
    · rw [if_neg hc]
      rcases List.mem_cons.mp (ih b) with h | h
      · simp [h]
      · exact List.mem_cons_of_mem _ (List.mem_cons_of_mem _ h)

theorem pickBest_stay (b : FileInfo) (l : List FileInfo)
    (h : ∀ fi ∈ l, ¬compareFiles b fi > 0) : pickBest b l = b := by
  induction l with
  | nil => rfl
  | cons fi rest ih =>
    rw [pickBest, if_neg (h fi (by simp))]
    exact ih (fun x hx => h x (by simp [hx]))

theorem filter_map_path (g : String → FileInfo) (hg : ∀ x, (g x).path = x)
    (k : String) (l : List String) :
    ((l.map g).filter (fun f => f.path ≠ k)).map (fun f => f.path) =
      l.filter (fun x => x ≠ k) := by
  induction l with
  | nil => rfl
  | cons a t ih =>
    simp only [List.map_cons, List.filter_cons]
    by_cases h : a = k
    · subst h
      simpa [hg] using ih
    · simpa [hg, h] using ih

theorem resolveDuplicates_cons_cons (stat : String → Nat × ℚ)
    (p q : String) (rest : List String) :
    resolveDuplicates stat (p :: q :: rest) =
      (some (pickBest (analyzeFile stat p) ((q :: rest).map (analyzeFile stat))).path,
       (((p :: q :: rest).map (analyzeFile stat)).filter
           (fun f => f.path ≠
             (pickBest (analyzeFile stat p) ((q :: rest).map (analyzeFile stat))).path)).map
         (fun f => f.path)) := rfl

/-- C1: on any non-empty duplicate group, resolve_duplicates keeps a member
of the group, the delete list is exactly the input members other than the
kept path, and a repeated invocation with the same per-file attributes
(the same `stat` oracle) returns the same decision. -/
theorem c1_resolve_keep_member_delete_rest (stat : String → Nat × ℚ)
    (paths : List String) (hne : paths ≠ []) :
    ∃ keep, keep ∈ paths ∧
      resolveDuplicates stat paths = (some keep, paths.filter (fun x => x ≠ keep)) ∧
      resolveDuplicates stat paths = resolveDuplicates stat paths := by
  match paths with
  | [] => exact absurd rfl hne
  | [p] =>
    refine ⟨p, by simp, ?_, rfl⟩
    simp [resolveDuplicates]
  | p :: q :: rest =>
    have hmem' : pickBest (analyzeFile stat p) ((q :: rest).map (analyzeFile stat)) ∈
        (p :: q :: rest).map (analyzeFile stat) := by
      simpa using pickBest_mem (analyzeFile stat p) ((q :: rest).map (analyzeFile stat))
    rcases List.mem_map.mp hmem' with ⟨x, hx, hfx⟩
    have hpath : (pickBest (analyzeFile stat p) ((q :: rest).map (analyzeFile stat))).path
        = x := by rw [← hfx]; rfl
    refine ⟨(pickBest (analyzeFile stat p) ((q :: rest).map (analyzeFile stat))).path,
      ?_, ?_, rfl⟩
    · rw [hpath]; exact hx
    · rw [resolveDuplicates_cons_cons]
      exact congrArg _ (filter_map_path (analyzeFile stat) (analyzeFile_path stat) _ _)

/-- Witness for C1 at a concrete two-element group. -/
theorem c1_witness :
    (["/data/a.mp4", "/data/b/a.mp4"] : List String) ≠ [] ∧
    (∃ keep, keep ∈ ["/data/a.mp4", "/data/b/a.mp4"] ∧
      resolveDuplicates (fun _ => (9, (2 : ℚ))) ["/data/a.mp4", "/data/b/a.mp4"] =
        (some keep, ["/data/a.mp4", "/data/b/a.mp4"].filter (fun x => x ≠ keep)) ∧
      resolveDuplicates (fun _ => (9, (2 : ℚ))) ["/data/a.mp4", "/data/b/a.mp4"] =
        resolveDuplicates (fun _ => (9, (2 : ℚ))) ["/data/a.mp4", "/data/b/a.mp4"]) :=
  ⟨by decide, c1_resolve_keep_member_delete_rest (fun _ => (9, (2 : ℚ)))
    ["/data/a.mp4", "/data/b/a.mp4"] (by decide)⟩

theorem analyzeFile_keep_in_folder_imp (stat : String → Nat × ℚ) (p : String) :
    (analyzeFile stat p).keep_in_folder = true → (analyzeFile stat p).has_keep = true := by
  show (analyzeMeta p).2.2.1 = true → (analyzeMeta p).2.1 = true
  unfold analyzeMeta
  by_cases hk : hasKeepStr p
  · cases hidx : (pathParts p).dropLast.findIdx? (fun part => hasKeepStr part) <;>
      simp [hk, hidx]
  · simp [hk]

/-- C6: among two group members that both carry the keep keyword in an
ancestor folder, the resolver keeps the one whose qualifying keep ancestor
sits closer to the root (smaller ancestor index), whichever order the
group lists them in and regardless of the files' depth and mtime (`stat`
is arbitrary). -/
theorem c6_keep_ancestor_closer_to_root_wins (stat : String → Nat × ℚ)
    (p1 p2 : String) (d1 d2 : Nat)
    (h1 : (analyzeFile stat p1).keep_in_folder = true)
    (h2 : (analyzeFile stat p2).keep_in_folder = true)
    (hd1 : (analyzeFile stat p1).keep_ancestor_depth = some d1)
    (hd2 : (analyzeFile stat p2).keep_ancestor_depth = some d2)
    (hlt : d1 < d2) :
    resolveDuplicates stat [p1, p2] = (some p1, [p2]) ∧
    resolveDuplicates stat [p2, p1] = (some p1, [p2]) := by
  have hk1 : (analyzeFile stat p1).has_keep = true :=
    analyzeFile_keep_in_folder_imp stat p1 h1
  have hk2 : (analyzeFile stat p2).has_keep = true :=
    analyzeFile_keep_in_folder_imp stat p2 h2
  have hne : p1 ≠ p2 := by
    intro he
    rw [he] at hd1
    have hdd := Option.some.inj (hd1.symm.trans hd2)
    omega
  have hc12 : compareFiles (analyzeFile stat p1) (analyzeFile stat p2) = -1 := by
    unfold compareFiles compareKeepTie
    simp [hk1, hk2, h1, h2, hd1, hd2, hlt]
  have hc21 : compareFiles (analyzeFile stat p2) (analyzeFile stat p1) = 1 := by
    have hnlt : ¬(d2 < d1) := by omega
    unfold compareFiles compareKeepTie
    simp [hk1, hk2, h1, h2, hd1, hd2, hlt, hnlt]
  constructor
  · rw [resolveDuplicates_cons_cons]
    have hpick : pickBest (analyzeFile stat p1) [analyzeFile stat p2] =
        analyzeFile stat p1 := by
      rw [pickBest, hc12]
      norm_num [pickBest]
    simp only [List.map_cons, List.map_nil]
    simp only [hpick]
    simp [analyzeFile_path, List.filter_cons, hne, Ne.symm hne]
  · rw [resolveDuplicates_cons_cons]
    have hpick : pickBest (analyzeFile stat p2) [analyzeFile stat p1] =
        analyzeFile stat p1 := by
      rw [pickBest, hc21]
      norm_num [pickBest]
    simp only [List.map_cons, List.map_nil]
    simp only [hpick]
    simp [analyzeFile_path, List.filter_cons, hne, Ne.symm hne]

/-- Witness for C6 at the spec's own example paths: the resolver keeps
`/keep/videos/action/movie.mkv` over `/data/keep/movie.mkv`. -/
theorem c6_witness :
    ((analyzeFile (fun _ => (4, (0 : ℚ))) "/keep/videos/action/movie.mkv").keep_in_folder
        = true) ∧
    ((analyzeFile (fun _ => (4, (0 : ℚ))) "/data/keep/movie.mkv").keep_in_folder = true) ∧
    ((analyzeFile (fun _ => (4, (0 : ℚ))) "/keep/videos/action/movie.mkv").keep_ancestor_depth
        = some 2) ∧
    ((analyzeFile (fun _ => (4, (0 : ℚ))) "/data/keep/movie.mkv").keep_ancestor_depth
        = some 3) ∧
    (resolveDuplicates (fun _ => (4, (0 : ℚ)))
        ["/keep/videos/action/movie.mkv", "/data/keep/movie.mkv"] =
      (some "/keep/videos/action/movie.mkv", ["/data/keep/movie.mkv"]) ∧
     resolveDuplicates (fun _ => (4, (0 : ℚ)))
        ["/data/keep/movie.mkv", "/keep/videos/action/movie.mkv"] =
      (some "/keep/videos/action/movie.mkv", ["/data/keep/movie.mkv"])) :=
  ⟨by decide, by decide, by decide, by decide,
   c6_keep_ancestor_closer_to_root_wins (fun _ => (4, (0 : ℚ)))
     "/keep/videos/action/movie.mkv" "/data/keep/movie.mkv" 2 3
     (by decide) (by decide) (by decide) (by decide) (by decide)⟩

theorem compareFiles_keyword_tie (f1 f2 : FileInfo)
    (hk : f1.has_keep = f2.has_keep) (hf : f1.keep_in_folder = f2.keep_in_folder)
    (ha : f1.keep_ancestor_depth = f2.keep_ancestor_depth) :
    compareFiles f1 f2 = compareDepthMtime f1 f2 := by
  unfold compareFiles compareKeepTie
  rw [← hk, ← hf, ← ha]
  cases hkb : f1.has_keep <;> cases hfb : f1.keep_in_folder <;> simp

theorem compareDepthMtime_eq_zero (f1 f2 : FileInfo)
    (h : compareDepthMtime f1 f2 = 0) : f1.depth = f2.depth ∧ f1.mtime = f2.mtime := by
  unfold compareDepthMtime at h
  by_cases h1 : f1.depth > f2.depth
  · simp [h1] at h
  · by_cases h2 : f2.depth > f1.depth
    · simp [h1, h2] at h
    · by_cases h3 : f1.mtime > f2.mtime
      · simp [h1, h2, h3] at h
      · by_cases h4 : f2.mtime > f1.mtime
        · simp [h1, h2, h3, h4] at h
        · exact ⟨by omega, le_antisymm (le_of_not_lt h3) (le_of_not_lt h4)⟩

theorem resolve_pair_keeps_first (stat : String → Nat × ℚ) (p1 p2 : String)
    (hne : p1 ≠ p2)
    (hc12 : compareFiles (analyzeFile stat p1) (analyzeFile stat p2) = -1)
    (hc21 : compareFiles (analyzeFile stat p2) (analyzeFile stat p1) = 1) :
    resolveDuplicates stat [p1, p2] = (some p1, [p2]) ∧
    resolveDuplicates stat [p2, p1] = (some p1, [p2]) := by
  constructor
  · rw [resolveDuplicates_cons_cons]
    have hpick : pickBest (analyzeFile stat p1) [analyzeFile stat p2] =
        analyzeFile stat p1 := by
      rw [pickBest, hc12]
      norm_num [pickBest]
    simp only [List.map_cons, List.map_nil]
    simp only [hpick]
    simp [analyzeFile_path, List.filter_cons, hne, Ne.symm hne]
  · rw [resolveDuplicates_cons_cons]
    have hpick : pickBest (analyzeFile stat p2) [analyzeFile stat p1] =
        analyzeFile stat p1 := by
      rw [pickBest, hc21]
      norm_num [pickBest]
    simp only [List.map_cons, List.map_nil]
    simp only [hpick]
    simp [analyzeFile_path, List.filter_cons, hne, Ne.symm hne]

/-- C7: for group members not distinguished by the keep-keyword tiers
(equal `has_keep`, `keep_in_folder` and `keep_ancestor_depth`), the
resolver keeps the deeper path in either input order; at equal depth it
keeps the newer mtime in either input order; when every tier ties it
keeps the first member in input order — stated for pairs and, in the last
conjunct, for groups of any size. -/
theorem c7_depth_mtime_order_fallback (stat : String → Nat × ℚ) (p1 p2 : String)
    (hk : (analyzeFile stat p1).has_keep = (analyzeFile stat p2).has_keep)
    (hf : (analyzeFile stat p1).keep_in_folder = (analyzeFile stat p2).keep_in_folder)
    (ha : (analyzeFile stat p1).keep_ancestor_depth =
      (analyzeFile stat p2).keep_ancestor_depth) :
    ((analyzeFile stat p1).depth > (analyzeFile stat p2).depth →
      resolveDuplicates stat [p1, p2] = (some p1, [p2]) ∧
      resolveDuplicates stat [p2, p1] = (some p1, [p2])) ∧
    ((analyzeFile stat p1).depth = (analyzeFile stat p2).depth →
      (analyzeFile stat p1).mtime > (analyzeFile stat p2).mtime →
      resolveDuplicates stat [p1, p2] = (some p1, [p2]) ∧
      resolveDuplicates stat [p2, p1] = (some p1, [p2])) ∧
    (compareFiles (analyzeFile stat p1) (analyzeFile stat p2) = 0 →
      (resolveDuplicates stat [p1, p2]).1 = some p1 ∧
      (resolveDuplicates stat [p2, p1]).1 = some p2) ∧
    (∀ (q : String) (l : List String),
      (∀ r ∈ l, compareFiles (analyzeFile stat q) (analyzeFile stat r) = 0) →
      (resolveDuplicates stat (q :: l)).1 = some q) := by
  refine ⟨?_, ?_, ?_, ?_⟩
  · intro hd
    have hne : p1 ≠ p2 := by
      intro he
      rw [he] at hd
      exact lt_irrefl _ hd
    have h12 : compareFiles (analyzeFile stat p1) (analyzeFile stat p2) = -1 := by
      rw [compareFiles_keyword_tie _ _ hk hf ha]
      simp [compareDepthMtime, hd]
    have h21 : compareFiles (analyzeFile stat p2) (analyzeFile stat p1) = 1 := by
      rw [compareFiles_keyword_tie _ _ hk.symm hf.symm ha.symm]
      have hnd := Nat.lt_asymm hd
      simp [compareDepthMtime, hd, hnd]
    exact resolve_pair_keeps_first stat p1 p2 hne h12 h21
  · intro hdep hmt
    have hne : p1 ≠ p2 := by
      intro he
      rw [he] at hmt
      exact lt_irrefl _ hmt
    have h12 : compareFiles (analyzeFile stat p1) (analyzeFile stat p2) = -1 := by
      rw [compareFiles_keyword_tie _ _ hk hf ha]
      simp [compareDepthMtime, hdep, hmt]
    have h21 : compareFiles (analyzeFile stat p2) (analyzeFile stat p1) = 1 := by
      rw [compareFiles_keyword_tie _ _ hk.symm hf.symm ha.symm]
      have hnm := lt_asymm hmt
      simp [compareDepthMtime, hdep, hmt, hnm]
    exact resolve_pair_keeps_first stat p1 p2 hne h12 h21
  · intro h0
    have h0d : compareDepthMtime (analyzeFile stat p1) (analyzeFile stat p2) = 0 := by
      rw [← compareFiles_keyword_tie _ _ hk hf ha]
      exact h0
    rcases compareDepthMtime_eq_zero _ _ h0d with ⟨hde, hme⟩
    have h0' : compareFiles (analyzeFile stat p2) (analyzeFile stat p1) = 0 := by
      rw [compareFiles_keyword_tie _ _ hk.symm hf.symm ha.symm]
      simp [compareDepthMtime, hde, hme]
    constructor
    · rw [resolveDuplicates_cons_cons]
      simp only [List.map_cons, List.map_nil]
      have hpick : pickBest (analyzeFile stat p1) [analyzeFile stat p2] =
          analyzeFile stat p1 := by
        rw [pickBest, h0]
        norm_num [pickBest]
      simp only [hpick]
      rfl
    · rw [resolveDuplicates_cons_cons]
      simp only [List.map_cons, List.map_nil]
      have hpick : pickBest (analyzeFile stat p2) [analyzeFile stat p1] =
          analyzeFile stat p2 := by
        rw [pickBest, h0']
        norm_num [pickBest]
      simp only [hpick]
      rfl
  · intro q l hall
    match l with
    | [] => rfl
    | r :: t =>
      rw [resolveDuplicates_cons_cons]
      have hpick : pickBest (analyzeFile stat q) ((r :: t).map (analyzeFile stat)) =
          analyzeFile stat q := by
        refine pickBest_stay _ _ ?_
        intro fi hfi
        rcases List.mem_map.mp hfi with ⟨x, hx, hfx⟩
        rw [← hfx, hall x hx]
        decide
      simp only [hpick]
      rfl

/-- Witness for C7 at a concrete pair with no keep keyword: the deeper
path `/m/a/v.mp4` is kept over `/m/v.mp4` in both input orders. -/
theorem c7_witness :
    ((analyzeFile (fun _ => (1, (5 : ℚ))) "/m/a/v.mp4").has_keep =
      (analyzeFile (fun _ => (1, (5 : ℚ))) "/m/v.mp4").has_keep) ∧
    ((analyzeFile (fun _ => (1, (5 : ℚ))) "/m/a/v.mp4").keep_in_folder =
      (analyzeFile (fun _ => (1, (5 : ℚ))) "/m/v.mp4").keep_in_folder) ∧
    ((analyzeFile (fun _ => (1, (5 : ℚ))) "/m/a/v.mp4").keep_ancestor_depth =
      (analyzeFile (fun _ => (1, (5 : ℚ))) "/m/v.mp4").keep_ancestor_depth) ∧
    ((analyzeFile (fun _ => (1, (5 : ℚ))) "/m/a/v.mp4").depth >
      (analyzeFile (fun _ => (1, (5 : ℚ))) "/m/v.mp4").depth) ∧
    (resolveDuplicates (fun _ => (1, (5 : ℚ))) ["/m/a/v.mp4", "/m/v.mp4"] =
        (some "/m/a/v.mp4", ["/m/v.mp4"]) ∧
      resolveDuplicates (fun _ => (1, (5 : ℚ))) ["/m/v.mp4", "/m/a/v.mp4"] =
        (some "/m/a/v.mp4", ["/m/v.mp4"])) :=
  ⟨by decide, by decide, by decide, by decide,
   (c7_depth_mtime_order_fallback (fun _ => (1, (5 : ℚ))) "/m/a/v.mp4" "/m/v.mp4"
     (by decide) (by decide) (by decide)).1 (by decide)⟩

/-! Lemmas about size grouping (group_by_size) and the selective-hashing
file list. -/

/-- First group stored under size key `s` (empty when the key is absent). -/
def lookupSize (gs : List (Nat × List FileMetadata)) (s : Nat) : List FileMetadata :=
  match gs with
  | [] => []
  | g :: rest => if g.1 = s then g.2 else lookupSize rest s

theorem lookupSize_addToGroups (gs : List (Nat × List FileMetadata))
    (f : FileMetadata) (s : Nat) :
    lookupSize (addToGroups gs f) s =
      if s = f.size then lookupSize gs s ++ [f] else lookupSize gs s := by
  induction gs with
  | nil =>
    by_cases h : s = f.size
    · subst h
      simp [addToGroups, lookupSize]
    · have h' : ¬(f.size = s) := fun he => h he.symm
      simp [addToGroups, lookupSize, h, h']
  | cons g rest ih =>
    rcases g with ⟨k, l⟩
    by_cases hg : k = f.size
    · subst hg
      by_cases hs : s = f.size
      · subst hs
        simp [addToGroups, lookupSize]
      · have hs' : ¬(f.size = s) := fun he => hs he.symm
        simp [addToGroups, lookupSize, hs, hs']
    · rw [addToGroups]
      simp only [hg, if_false]
      by_cases hs : k = s
      · subst hs
        have hg' : ¬(k = f.size) := hg
        have hg2 : ¬(k = f.size) := hg
        simp [lookupSize, fun he => hg (he : k = f.size)]
      · simp [lookupSize, hs, ih]

theorem lookupSize_foldl (files : List FileMetadata)
    (gs : List (Nat × List FileMetadata)) (s : Nat) :
    lookupSize (files.foldl addToGroups gs) s =
      lookupSize gs s ++ files.filter (fun f => f.size = s) := by
  induction files generalizing gs with
  | nil => simp
  | cons f fs ih =>
    rw [List.foldl_cons, ih, lookupSize_addToGroups]
    by_cases h : s = f.size
    · simp [h, List.filter_cons, List.append_assoc]
    · have h' : ¬(f.size = s) := fun he => h he.symm
      simp [h, h', List.filter_cons]

theorem lookupSize_groupBySize (files : List FileMetadata) (s : Nat) :
    lookupSize (groupBySize files) s = files.filter (fun f => f.size = s) := by
  have := lookupSize_foldl files [] s
  simpa [groupBySize, lookupSize] using this

theorem mem_keys_addToGroups (gs : List (Nat × List FileMetadata))
    (f : FileMetadata) (a : Nat) :
    a ∈ (addToGroups gs f).map Prod.fst ↔ a ∈ gs.map Prod.fst ∨ a = f.size := by
  induction gs with
  | nil => simp [addToGroups]
  | cons g rest ih =>
    rcases g with ⟨k, l⟩
    by_cases hg : k = f.size
    · subst hg
      simp [addToGroups]
      tauto
    · simp [addToGroups, hg, ih]
      tauto

theorem keysNodup_addToGroups (gs : List (Nat × List FileMetadata))
    (f : FileMetadata) (h : (gs.map Prod.fst).Nodup) :
    ((addToGroups gs f).map Prod.fst).Nodup := by
  induction gs with
  | nil => simp [addToGroups]
  | cons g rest ih =>
    rcases g with ⟨k, l⟩
    rcases List.nodup_cons.mp h with ⟨hk, hrest⟩
    by_cases hg : k = f.size
    · subst hg
      simpa [addToGroups] using h
    · rw [addToGroups]
      simp only [hg, if_false]
      refine List.nodup_cons.mpr ⟨?_, ih hrest⟩
      intro hmem
      rcases (mem_keys_addToGroups rest f k).mp hmem with h1 | h1
      · exact hk h1
      · exact hg h1

theorem keysNodup_foldl (files : List FileMetadata)
    (gs : List (Nat × List FileMetadata)) (h : (gs.map Prod.fst).Nodup) :
    ((files.foldl addToGroups gs).map Prod.fst).Nodup := by
  induction files generalizing gs with
  | nil => exact h
  | cons f fs ih => exact ih _ (keysNodup_addToGroups gs f h)

theorem keysNodup_groupBySize (files : List FileMetadata) :
    ((groupBySize files).map Prod.fst).Nodup :=
  keysNodup_foldl files [] (by simp)

theorem lookupSize_of_mem (gs : List (Nat × List FileMetadata)) (s : Nat)
    (l : List FileMetadata) (hnd : (gs.map Prod.fst).Nodup) (hmem : (s, l) ∈ gs) :
    lookupSize gs s = l := by
  induction gs with
  | nil => cases hmem
  | cons g rest ih =>
    rcases g with ⟨k, v⟩
    rcases List.nodup_cons.mp hnd with ⟨hk, hrest⟩
    rcases List.mem_cons.mp hmem with h | h
    · rw [lookupSize]
      rcases Prod.mk.injEq .. ▸ h with ⟨h1, h2⟩
      simp [← h1, h2]
    · have hks : k ≠ s := by
        intro he
        subst he
        exact hk (List.mem_map.mpr ⟨(k, l), h, rfl⟩)
      rw [lookupSize]
      simp [hks, ih hrest h]

theorem mem_of_lookupSize_ne (gs : List (Nat × List FileMetadata)) (s : Nat)
    (h : lookupSize gs s ≠ []) : (s, lookupSize gs s) ∈ gs := by
  induction gs with
  | nil => exact absurd rfl h
  | cons g rest ih =>
    rcases g with ⟨k, v⟩
    by_cases hk : k = s
    · subst hk
      simp [lookupSize]
    · rw [lookupSize] at h ⊢
      simp only [hk, if_false] at h ⊢
      exact List.mem_cons_of_mem _ (ih h)

theorem mem_filesToHash_iff (files : List FileMetadata)
    (f : FileMetadata) :
    f ∈ filesToHash files ↔
      (f ∈ files ∧ 2 ≤ (files.filter (fun g => g.size = f.size)).length) := by
  constructor
  · intro hmem
    rcases List.mem_bind.mp hmem with ⟨g, hg, hf⟩
    rcases List.mem_filter.mp hg with ⟨hgs, hlen⟩
    rcases g with ⟨s, l⟩
    have hl : l = files.filter (fun x => x.size = s) := by
      rw [← lookupSize_groupBySize files s,
        lookupSize_of_mem _ s l (keysNodup_groupBySize files) hgs]
    have hfl : f ∈ files.filter (fun x => x.size = s) := hl ▸ hf
    rcases List.mem_filter.mp hfl with ⟨hfin, hfs⟩
    have hfs' : f.size = s := by simpa using hfs
    refine ⟨hfin, ?_⟩
    have hlen' : 2 ≤ l.length := by simpa using hlen
    rw [← hfs'] at hl
    rw [← hl]
    exact hlen'
  · rintro ⟨hfin, hlen⟩
    have hfl : f ∈ files.filter (fun x => x.size = f.size) :=
      List.mem_filter.mpr ⟨hfin, by simp⟩
    have hne : files.filter (fun x => x.size = f.size) ≠ [] := by
      intro he
      rw [he] at hfl
      cases hfl
    have hlook : lookupSize (groupBySize files) f.size =
        files.filter (fun x => x.size = f.size) := lookupSize_groupBySize files f.size
    have hent : (f.size, files.filter (fun x => x.size = f.size)) ∈ groupBySize files := by
      have := mem_of_lookupSize_ne (groupBySize files) f.size (by rw [hlook]; exact hne)
      rwa [hlook] at this
    refine List.mem_bind.mpr ⟨(f.size, files.filter (fun x => x.size = f.size)), ?_, hfl⟩
    exact List.mem_filter.mpr ⟨hent, by simpa using hlen⟩

/-- C2: in one detection run the hashing phase receives exactly the files
whose exact size is shared by at least one other scanned file: a file
whose size is held by exactly one scanned file is never hashed, and every
file that reaches hashing has a size collision.  (`detectDuplicates`
resolves hashes precisely for the members of `filesToHash files`.) -/
theorem c2_only_size_collisions_hashed (files : List FileMetadata)
    (f : FileMetadata) :
    f ∈ filesToHash files ↔
      (f ∈ files ∧ 2 ≤ (files.filter (fun g => g.size = f.size)).length) :=
  mem_filesToHash_iff files f

/-! Permutation and sublist facts: the hashing worklist consists of scanned
files, each taken at most once, so path uniqueness survives grouping. -/

theorem addToGroups_bind_perm (gs : List (Nat × List FileMetadata)) (f : FileMetadata) :
    List.Perm ((addToGroups gs f).bind (fun g => g.2)) (f :: gs.bind (fun g => g.2)) := by
  induction gs with
  | nil => simp [addToGroups]
  | cons g rest ih =>
    rcases g with ⟨k, l⟩
    by_cases hg : k = f.size
    · subst hg
      have hadd : addToGroups ((f.size, l) :: rest) f = (f.size, l ++ [f]) :: rest := by
        rw [addToGroups, if_pos rfl]
      rw [hadd]
      simp only [List.cons_bind]
      rw [List.append_assoc]
      exact List.perm_middle
    · rw [addToGroups]
      simp only [hg, if_false, List.cons_bind]
      exact (List.Perm.append_left l ih).trans List.perm_middle

theorem foldl_bind_perm (files : List FileMetadata)
    (gs : List (Nat × List FileMetadata)) :
    List.Perm ((files.foldl addToGroups gs).bind (fun g => g.2))
      (gs.bind (fun g => g.2) ++ files) := by
  induction files generalizing gs with
  | nil => simp
  | cons f fs ih =>
    rw [List.foldl_cons]
    refine (ih (addToGroups gs f)).trans ?_
    refine (List.Perm.append_right fs (addToGroups_bind_perm gs f)).trans ?_
    exact (List.perm_middle).symm

theorem groupBySize_bind_perm (files : List FileMetadata) :
    List.Perm ((groupBySize files).bind (fun g => g.2)) files := by
  simpa [groupBySize] using foldl_bind_perm files []

theorem filter_bind_sublist {α β : Type} (gs : List α) (q : α → Bool) (h : α → List β) :
    List.Sublist ((gs.filter q).bind h) (gs.bind h) := by
  induction gs with
  | nil => simp
  | cons g rest ih =>
    rw [List.filter_cons]
    by_cases hq : q g
    · simp only [hq, if_true, List.cons_bind]
      exact List.Sublist.append_left ih (h g)
    · simp only [hq, Bool.false_eq_true, if_false, List.cons_bind]
      exact ih.trans (List.sublist_append_right (h g) _)

theorem filesToHash_sublist (files : List FileMetadata) :
    List.Sublist (filesToHash files) ((groupBySize files).bind (fun g => g.2)) :=
  filter_bind_sublist (groupBySize files) _ _

theorem filesToHash_paths_nodup (files : List FileMetadata)
    (h : (files.map (fun f => f.path)).Nodup) :
    ((filesToHash files).map (fun f => f.path)).Nodup := by
  have hall : (((groupBySize files).bind (fun g => g.2)).map (fun f => f.path)).Nodup :=
    (((groupBySize_bind_perm files).map (fun f => f.path)).nodup_iff).mpr h
  exact ((filesToHash_sublist files).map (fun f => f.path)).nodup hall

/-! Record tracking through the pre-cache pass and the hashing loop. -/

theorem precache_foldl_other (folder : String) (ms : List FileMetadata)
    (cache : List CachedFile) (p fl : String) (h : ∀ fm ∈ ms, fm.path ≠ p) :
    getFromCache (ms.foldl (precacheStep folder) cache) p fl = getFromCache cache p fl := by
  induction ms generalizing cache with
  | nil => rfl
  | cons fm rest ih =>
    rw [List.foldl_cons, ih _ (fun x hx => h x (by simp [hx])),
      precacheStep_other folder cache fm p fl (h fm (by simp))]

theorem precacheStep_self (folder : String) (cache : List CachedFile) (f : FileMetadata)
    (h : ∀ c, getFromCache cache f.path folder = some c →
      ¬(c.file_size = f.size ∧ c.file_mtime = f.mtime)) :
    getFromCache (precacheStep folder cache f) f.path folder = some (blankRec f folder) := by
  unfold precacheStep
  cases hrec : getFromCache cache f.path folder with
  | none => simp [getFromCache_saveToCache, blankRec]
  | some c =>
    have hc := h c hrec
    simp [hc, getFromCache_saveToCache, blankRec]

theorem precache_record (folder : String) (pre post : List FileMetadata)
    (cache : List CachedFile) (f : FileMetadata)
    (hpre : ∀ fm ∈ pre, fm.path ≠ f.path) (hpost : ∀ fm ∈ post, fm.path ≠ f.path)
    (hstale : ∀ c, getFromCache cache f.path folder = some c →
      ¬(c.file_size = f.size ∧ c.file_mtime = f.mtime)) :
    getFromCache ((pre ++ f :: post).foldl (precacheStep folder) cache) f.path folder =
      some (blankRec f folder) := by
  rw [List.foldl_append, List.foldl_cons,
    precache_foldl_other folder post _ _ _ hpost]
  refine precacheStep_self folder _ f ?_
  intro c hc
  rw [precache_foldl_other folder pre cache _ _ hpre] at hc
  exact hstale c hc

theorem mem_upsertAppend {α : Type} (key : String) (v : α)
    (hg : List (String × List α)) (g : String × List α)
    (hgm : g ∈ upsertAppend key v hg) (x : α) (hx : x ∈ g.2) :
    (∃ g0 ∈ hg, x ∈ g0.2) ∨ x = v := by
  induction hg with
  | nil =>
    rw [upsertAppend] at hgm
    rcases List.mem_cons.mp hgm with h | h
    · subst h
      simpa using hx
    · cases h
  | cons e rest ih =>
    rcases e with ⟨k, l⟩
    rw [upsertAppend] at hgm
    by_cases hk : k = key
    · simp only [hk, if_true] at hgm
      rcases List.mem_cons.mp hgm with h | h
      · subst h
        rcases List.mem_append.mp hx with h1 | h1
        · exact Or.inl ⟨(k, l), by simp, h1⟩
        · simpa using Or.inr (List.mem_singleton.mp h1)
      · exact Or.inl ⟨g, List.mem_cons_of_mem _ h, hx⟩
    · simp only [hk, if_false] at hgm
      rcases List.mem_cons.mp hgm with h | h
      · subst h
        exact Or.inl ⟨(k, l), by simp, hx⟩
      · rcases ih h with ⟨g0, hg0, hxg0⟩ | hv
        · exact Or.inl ⟨g0, List.mem_cons_of_mem _ hg0, hxg0⟩
        · exact Or.inr hv

theorem hashStep_cache_other (hashFn : String → String) (folder : String)
    (st : DetectState) (fm : FileMetadata) (p fl : String) (hne : fm.path ≠ p) :
    getFromCache (hashStep hashFn folder st fm).cache p fl =
      getFromCache st.cache p fl := by
  have hpres := hashFileWithCache_other hashFn fm folder st.cache p fl hne
  unfold hashStep
  rcases hout : hashFileWithCache hashFn fm folder st.cache with ⟨outcome, c⟩
  rw [hout] at hpres
  cases outcome <;> simpa using hpres

theorem hashStep_skipped_mono (hashFn : String → String) (folder : String)
    (st : DetectState) (fm : FileMetadata) :
    st.skipped ≤ (hashStep hashFn folder st fm).skipped := by
  unfold hashStep
  rcases hashFileWithCache hashFn fm folder st.cache with ⟨outcome, c⟩
  cases outcome <;> simp

theorem hashStep_groups_other (hashFn : String → String) (folder : String)
    (st : DetectState) (fm : FileMetadata) (p : String) (hne : fm.path ≠ p)
    (h : ∀ g ∈ st.hashGroups, ∀ pr ∈ g.2, pr.1 ≠ p) :
    ∀ g ∈ (hashStep hashFn folder st fm).hashGroups, ∀ pr ∈ g.2, pr.1 ≠ p := by
  unfold hashStep
  rcases hashFileWithCache hashFn fm folder st.cache with ⟨outcome, c⟩
  cases outcome with
  | hit hh =>
    intro g hgm pr hpr
    rcases mem_upsertAppend hh (fm.path, fm.size) st.hashGroups g (by simpa using hgm)
        pr hpr with ⟨g0, hg0, hprg0⟩ | hv
    · exact h g0 hg0 pr hprg0
    · rw [hv]
      exact hne
  | computed hh =>
    intro g hgm pr hpr
    rcases mem_upsertAppend hh (fm.path, fm.size) st.hashGroups g (by simpa using hgm)
        pr hpr with ⟨g0, hg0, hprg0⟩ | hv
    · exact h g0 hg0 pr hprg0
    · rw [hv]
      exact hne
  | failed => simpa using h

theorem hashLoop_pres (hashFn : String → String) (folder : String) (p fl : String)
    (ms : List FileMetadata) (st : DetectState) (hm : ∀ fm ∈ ms, fm.path ≠ p) :
    getFromCache ((ms.foldl (hashStep hashFn folder) st)).cache p fl =
      getFromCache st.cache p fl ∧
    st.skipped ≤ (ms.foldl (hashStep hashFn folder) st).skipped ∧
    ((∀ g ∈ st.hashGroups, ∀ pr ∈ g.2, pr.1 ≠ p) →
      ∀ g ∈ (ms.foldl (hashStep hashFn folder) st).hashGroups, ∀ pr ∈ g.2, pr.1 ≠ p) := by
  induction ms generalizing st with
  | nil => exact ⟨rfl, le_refl _, fun h => h⟩
  | cons fm rest ih =>
    rw [List.foldl_cons]
    have hfm : fm.path ≠ p := hm fm (by simp)
    rcases ih (hashStep hashFn folder st fm) (fun x hx => hm x (by simp [hx])) with
      ⟨h1, h2, h3⟩
    refine ⟨h1.trans (hashStep_cache_other hashFn folder st fm p fl hfm),
      le_trans (hashStep_skipped_mono hashFn folder st fm) h2, ?_⟩
    intro h0
    exact h3 (hashStep_groups_other hashFn folder st fm p hfm h0)

theorem hashFileWithCache_at_blank (hashFn : String → String) (f : FileMetadata)
    (folder : String) (cache : List CachedFile)
    (hrec : getFromCache cache f.path folder = some (blankRec f folder)) :
    hashFileWithCache hashFn f folder cache =
      (if hashFn f.path = "" then (HashOutcome.failed, cache)
       else (HashOutcome.computed (hashFn f.path),
         saveToCache cache (computedRec f folder (hashFn f.path)))) := by
  unfold hashFileWithCache
  rw [hrec]
  simp [blankRec, hashTruthy]

theorem hashStep_at_blank_failed (hashFn : String → String) (folder : String)
    (st : DetectState) (f : FileMetadata)
    (hrec : getFromCache st.cache f.path folder = some (blankRec f folder))
    (hfail : hashFn f.path = "") :
    hashStep hashFn folder st f = { st with skipped := st.skipped + 1 } := by
  unfold hashStep
  rw [hashFileWithCache_at_blank hashFn f folder st.cache hrec, if_pos hfail]

theorem hashStep_at_blank_computed (hashFn : String → String) (folder : String)
    (st : DetectState) (f : FileMetadata)
    (hrec : getFromCache st.cache f.path folder = some (blankRec f folder))
    (hok : ¬hashFn f.path = "") :
    hashStep hashFn folder st f =
      { st with cache := saveToCache st.cache (computedRec f folder (hashFn f.path))
                filesHashed := st.filesHashed + 1
                hashGroups := upsertAppend (hashFn f.path) (f.path, f.size) st.hashGroups } := by
  unfold hashStep
  rw [hashFileWithCache_at_blank hashFn f folder st.cache hrec, if_neg hok]

theorem detectLoop_track (hashFn : String → String) (folder : String)
    (cache : List CachedFile) (files : List FileMetadata) (f : FileMetadata)
    (hnd : (files.map (fun x => x.path)).Nodup)
    (hf : f ∈ files)
    (hcol : 2 ≤ (files.filter (fun g => g.size = f.size)).length)
    (hstale : ∀ c, getFromCache cache f.path folder = some c →
      ¬(c.file_size = f.size ∧ c.file_mtime = f.mtime)) :
    (hashFn f.path = "" →
      (∀ g ∈ (detectLoop hashFn folder cache files).hashGroups,
        ∀ pr ∈ g.2, pr.1 ≠ f.path) ∧
      1 ≤ (detectLoop hashFn folder cache files).skipped ∧
      getFromCache (detectLoop hashFn folder cache files).cache f.path folder =
        some (blankRec f folder)) ∧
    (¬hashFn f.path = "" →
      getFromCache (detectLoop hashFn folder cache files).cache f.path folder =
        some (computedRec f folder (hashFn f.path))) := by
  obtain ⟨preF, postF, hfiles⟩ := List.append_of_mem hf
  have hndF := hnd
  rw [hfiles, List.map_append, List.map_cons] at hndF
  have hmidF := (List.nodup_cons.mp (List.nodup_middle.mp hndF)).1
  have hpreF : ∀ fm ∈ preF, fm.path ≠ f.path := by
    intro fm hm he
    exact hmidF (List.mem_append.mpr (Or.inl (List.mem_map.mpr ⟨fm, hm, he⟩)))
  have hpostF : ∀ fm ∈ postF, fm.path ≠ f.path := by
    intro fm hm he
    exact hmidF (List.mem_append.mpr (Or.inr (List.mem_map.mpr ⟨fm, hm, he⟩)))
  have hcache1 : getFromCache (detectPrecache folder cache files) f.path folder =
      some (blankRec f folder) := by
    rw [detectPrecache, hfiles]
    exact precache_record folder preF postF cache f hpreF hpostF hstale
  have hfT : f ∈ filesToHash files :=
    (mem_filesToHash_iff files f).mpr ⟨hf, hcol⟩
  have hndT : ((filesToHash files).map (fun x => x.path)).Nodup :=
    filesToHash_paths_nodup files hnd
  obtain ⟨preH, postH, hT⟩ := List.append_of_mem hfT
  rw [hT, List.map_append, List.map_cons] at hndT
  have hmidT := (List.nodup_cons.mp (List.nodup_middle.mp hndT)).1
  have hpreH : ∀ fm ∈ preH, fm.path ≠ f.path := by
    intro fm hm he
    exact hmidT (List.mem_append.mpr (Or.inl (List.mem_map.mpr ⟨fm, hm, he⟩)))
  have hpostH : ∀ fm ∈ postH, fm.path ≠ f.path := by
    intro fm hm he
    exact hmidT (List.mem_append.mpr (Or.inr (List.mem_map.mpr ⟨fm, hm, he⟩)))
  have hloop : detectLoop hashFn folder cache files =
      postH.foldl (hashStep hashFn folder)
        (hashStep hashFn folder
          (preH.foldl (hashStep hashFn folder)
            ⟨[], detectPrecache folder cache files, 0, 0, 0⟩) f) := by
    rw [detectLoop, hT, List.foldl_append, List.foldl_cons]
  rcases hashLoop_pres hashFn folder f.path folder preH
      ⟨[], detectPrecache folder cache files, 0, 0, 0⟩ hpreH with ⟨hc1, _, hg1⟩
  have hrec1 : getFromCache
      (preH.foldl (hashStep hashFn folder)
        ⟨[], detectPrecache folder cache files, 0, 0, 0⟩).cache f.path folder =
      some (blankRec f folder) := by
    rw [hc1]
    exact hcache1
  have hgr1 : ∀ g ∈ (preH.foldl (hashStep hashFn folder)
      ⟨[], detectPrecache folder cache files, 0, 0, 0⟩).hashGroups,
      ∀ pr ∈ g.2, pr.1 ≠ f.path := by
    apply hg1
    intro g hg
    exact absurd hg (List.not_mem_nil _)
  constructor
  · intro hfail
    have hstep := hashStep_at_blank_failed hashFn folder _ f hrec1 hfail
    rw [hloop, hstep]
    rcases hashLoop_pres hashFn folder f.path folder postH
        { preH.foldl (hashStep hashFn folder)
            ⟨[], detectPrecache folder cache files, 0, 0, 0⟩ with
          skipped := (preH.foldl (hashStep hashFn folder)
            ⟨[], detectPrecache folder cache files, 0, 0, 0⟩).skipped + 1 }
        hpostH with ⟨hc3, hs3, hg3⟩
    refine ⟨hg3 hgr1, le_trans (Nat.succ_le_succ (Nat.zero_le _)) hs3, ?_⟩
    rw [hc3]
    exact hrec1
  · intro hok
    have hstep := hashStep_at_blank_computed hashFn folder _ f hrec1 hok
    rw [hloop, hstep]
    rcases hashLoop_pres hashFn folder f.path folder postH
        { preH.foldl (hashStep hashFn folder)
            ⟨[], detectPrecache folder cache files, 0, 0, 0⟩ with
          cache := saveToCache
            (preH.foldl (hashStep hashFn folder)
              ⟨[], detectPrecache folder cache files, 0, 0, 0⟩).cache
            (computedRec f folder (hashFn f.path))
          filesHashed := (preH.foldl (hashStep hashFn folder)
            ⟨[], detectPrecache folder cache files, 0, 0, 0⟩).filesHashed + 1
          hashGroups := upsertAppend (hashFn f.path) (f.path, f.size)
            (preH.foldl (hashStep hashFn folder)
              ⟨[], detectPrecache folder cache files, 0, 0, 0⟩).hashGroups }
        hpostH with ⟨hc3, _, _⟩
    rw [hc3]
    show getFromCache (saveToCache _ (computedRec f folder (hashFn f.path)))
      f.path folder = _
    rw [getFromCache_saveToCache]
    simp [computedRec]

theorem detectDuplicates_of_ne_nil (hashFn : String → String) (folder : String)
    (cache : List CachedFile) (files : List FileMetadata) (h : files ≠ []) :
    detectDuplicates hashFn folder cache files =
      (detectGroupsOf (detectLoop hashFn folder cache files),
       detectLoop hashFn folder cache files) := by
  rw [detectDuplicates, if_neg]
  simpa [List.isEmpty_iff] using h

/-- C9: a file whose read fails during hash computation (compute_file_hash
returns `""`) does not abort the run: the file's path appears in no
emitted duplicate group, the skipped counter is incremented, and the
file's cache record keeps a null hash (it is never updated with a new
hash). -/
theorem c9_hash_failure_nonfatal (hashFn : String → String) (folder : String)
    (cache : List CachedFile) (files : List FileMetadata) (f : FileMetadata)
    (hnd : (files.map (fun x => x.path)).Nodup)
    (hf : f ∈ files)
    (hcol : 2 ≤ (files.filter (fun g => g.size = f.size)).length)
    (hnc : getFromCache cache f.path folder = none)
    (hfail : hashFn f.path = "") :
    (∀ g ∈ (detectDuplicates hashFn folder cache files).1, f.path ∉ g.files) ∧
    1 ≤ (detectDuplicates hashFn folder cache files).2.skipped ∧
    getFromCache (detectDuplicates hashFn folder cache files).2.cache f.path folder =
      some (blankRec f folder) := by
  have hne : files ≠ [] := List.ne_nil_of_mem hf
  have hstale : ∀ c, getFromCache cache f.path folder = some c →
      ¬(c.file_size = f.size ∧ c.file_mtime = f.mtime) := by
    intro c hc
    rw [hnc] at hc
    cases hc
  rcases (detectLoop_track hashFn folder cache files f hnd hf hcol hstale).1 hfail with
    ⟨hgr, hsk, hrec⟩
  rw [detectDuplicates_of_ne_nil hashFn folder cache files hne]
  refine ⟨?_, hsk, hrec⟩
  intro g hg hmem
  rw [detectGroupsOf] at hg
  rcases List.mem_map.mp hg with ⟨e, he, hge⟩
  rw [← hge] at hmem
  rcases List.mem_map.mp hmem with ⟨pr, hpr, hpre⟩
  exact hgr e (List.mem_filter.mp he).1 pr hpr hpre

/-- Witness for C9: two same-size files where reading the first fails; the
run emits no group containing it, counts one skip, and leaves its record
hash-less. -/
theorem c9_witness :
    (([⟨"/x/f1", 50, 1⟩, ⟨"/x/f2", 50, 2⟩] : List FileMetadata).map
        (fun x => x.path)).Nodup ∧
    (⟨"/x/f1", 50, 1⟩ : FileMetadata) ∈
      ([⟨"/x/f1", 50, 1⟩, ⟨"/x/f2", 50, 2⟩] : List FileMetadata) ∧
    2 ≤ (([⟨"/x/f1", 50, 1⟩, ⟨"/x/f2", 50, 2⟩] : List FileMetadata).filter
      (fun g => g.size = (⟨"/x/f1", 50, 1⟩ : FileMetadata).size)).length ∧
    getFromCache [] "/x/f1" "input" = none ∧
    (fun p => if p = "/x/f1" then "" else "ha") "/x/f1" = "" ∧
    ((∀ g ∈ (detectDuplicates (fun p => if p = "/x/f1" then "" else "ha") "input" []
        [⟨"/x/f1", 50, 1⟩, ⟨"/x/f2", 50, 2⟩]).1, "/x/f1" ∉ g.files) ∧
     1 ≤ (detectDuplicates (fun p => if p = "/x/f1" then "" else "ha") "input" []
        [⟨"/x/f1", 50, 1⟩, ⟨"/x/f2", 50, 2⟩]).2.skipped ∧
     getFromCache (detectDuplicates (fun p => if p = "/x/f1" then "" else "ha") "input" []
        [⟨"/x/f1", 50, 1⟩, ⟨"/x/f2", 50, 2⟩]).2.cache "/x/f1" "input" =
       some (blankRec ⟨"/x/f1", 50, 1⟩ "input")) :=
  ⟨by decide, by decide, by decide, by decide, by decide,
   c9_hash_failure_nonfatal (fun p => if p = "/x/f1" then "" else "ha") "input" []
     [⟨"/x/f1", 50, 1⟩, ⟨"/x/f2", 50, 2⟩] ⟨"/x/f1", 50, 1⟩
     (by decide) (by decide) (by decide) (by decide) (by decide)⟩

/-- C4 counterexample: a cache holding a Phase-A record for `/in/a`
(hash "h1", mtime 10) and an output record with the same hash and size.
Whatever the file's current contents hash to now (`hashFn` returns "h2",
i.e. the file changed on disk after the record was written, so its mtime
and hash are stale), the cross-folder phase emits the group built from
the stale cached hash "h1" with `/in/a` among its members and leaves the
cache byte-for-byte unchanged: no hash is recomputed and no current
mtime is ever consulted. -/
theorem c4_counterexample_stale_reuse :
    (findCrossFolderDuplicates (fun _ => "h2") (fun _ => true)
        [⟨"/in/a", "input", some "h1", some "full", none, 100, 10⟩,
         ⟨"/out/b", "output", some "h1", some "full", none, 100, 5⟩]).1 =
      [⟨"h1", ["/in/a", "/out/b"], 100⟩] ∧
    (findCrossFolderDuplicates (fun _ => "h2") (fun _ => true)
        [⟨"/in/a", "input", some "h1", some "full", none, 100, 10⟩,
         ⟨"/out/b", "output", some "h1", some "full", none, 100, 5⟩]).2 =
      [⟨"/in/a", "input", some "h1", some "full", none, 100, 10⟩,
       ⟨"/out/b", "output", some "h1", some "full", none, 100, 5⟩] ∧
    ((fun _ : String => "h2") "/in/a" ≠ "h1") := by
  refine ⟨by decide, by decide, by decide⟩

theorem addCF_members (b : Bool) (gs : List (Nat × List CachedFile × List CachedFile))
    (f : CachedFile) (g : Nat × List CachedFile × List CachedFile)
    (hg : g ∈ addCF b gs f) (x : CachedFile) (hx : x ∈ g.2.1 ∨ x ∈ g.2.2) :
    (∃ g0 ∈ gs, x ∈ g0.2.1 ∨ x ∈ g0.2.2) ∨ x = f := by
  induction gs with
  | nil =>
    rw [addCF] at hg
    rcases List.mem_cons.mp hg with h | h
    · subst h
      cases b <;> simp at hx <;> exact Or.inr hx
    · cases h
  | cons e rest ih =>
    rcases e with ⟨s, inp, out⟩
    rw [addCF] at hg
    by_cases hs : s = f.file_size
    · simp only [hs, if_true] at hg
      rcases List.mem_cons.mp hg with h | h
      · subst h
        cases b with
        | false =>
          simp only [Bool.false_eq_true, if_false] at hx
          rcases hx with h1 | h1
          · exact Or.inl ⟨(s, inp, out), by simp, Or.inl h1⟩
          · rcases List.mem_append.mp h1 with h2 | h2
            · exact Or.inl ⟨(s, inp, out), by simp, Or.inr h2⟩
            · exact Or.inr (List.mem_singleton.mp h2)
        | true =>
          simp only [if_true] at hx
          rcases hx with h1 | h1
          · rcases List.mem_append.mp h1 with h2 | h2
            · exact Or.inl ⟨(s, inp, out), by simp, Or.inl h2⟩
            · exact Or.inr (List.mem_singleton.mp h2)
          · exact Or.inl ⟨(s, inp, out), by simp, Or.inr h1⟩
      · exact Or.inl ⟨g, List.mem_cons_of_mem _ h, hx⟩
    · simp only [hs, if_false] at hg
      rcases List.mem_cons.mp hg with h | h
      · subst h
        exact Or.inl ⟨(s, inp, out), by simp, hx⟩
      · rcases ih h with ⟨g0, hg0, hxg0⟩ | hv
        · exact Or.inl ⟨g0, List.mem_cons_of_mem _ hg0, hxg0⟩
        · exact Or.inr hv

theorem cfFold_members (b : Bool) (l : List CachedFile)
    (gs0 : List (Nat × List CachedFile × List CachedFile))
    (g : Nat × List CachedFile × List CachedFile)
    (hg : g ∈ l.foldl (addCF b) gs0) (x : CachedFile)
    (hx : x ∈ g.2.1 ∨ x ∈ g.2.2) :
    (∃ g0 ∈ gs0, x ∈ g0.2.1 ∨ x ∈ g0.2.2) ∨ x ∈ l := by
  induction l generalizing gs0 with
  | nil => exact Or.inl ⟨g, hg, hx⟩
  | cons f rest ih =>
    rw [List.foldl_cons] at hg
    rcases ih (addCF b gs0 f) hg with ⟨g0, hg0, hxg0⟩ | hv
    · rcases addCF_members b gs0 f g0 hg0 x hxg0 with ⟨g1, hg1, hxg1⟩ | hv1
      · exact Or.inl ⟨g1, hg1, hxg1⟩
      · exact Or.inr (hv1 ▸ List.mem_cons_self f rest)
    · exact Or.inr (List.mem_cons_of_mem f hv)

theorem cfSizeGroups_sub (cache : List CachedFile)
    (g : Nat × List CachedFile × List CachedFile) (hg : g ∈ cfSizeGroups cache)
    (x : CachedFile) (hx : x ∈ g.2.1 ∨ x ∈ g.2.2) : x ∈ cache := by
  rw [cfSizeGroups] at hg
  rcases cfFold_members false (getAllForLabel cache "output") _ g hg x hx with
    ⟨g0, hg0, hxg0⟩ | hv
  · rcases cfFold_members true (getAllForLabel cache "input") [] g0 hg0 x hxg0 with
      ⟨g1, hg1, _⟩ | hv1
    · cases hg1
    · exact List.mem_of_mem_filter hv1
  · exact List.mem_of_mem_filter hv

theorem cfFilesToHash_nil (cache : List CachedFile)
    (h : ∀ r ∈ cache, hashTruthy r.file_hash = true) : cfFilesToHash cache = [] := by
  refine List.eq_nil_iff_forall_not_mem.mpr ?_
  intro pr hpr
  rw [cfFilesToHash] at hpr
  rcases List.mem_bind.mp hpr with ⟨g, hg, hin⟩
  by_cases hcond : g.2.1 ≠ [] ∧ g.2.2 ≠ []
  · rw [if_pos hcond] at hin
    rcases List.mem_append.mp hin with h1 | h1
    · rcases List.mem_map.mp h1 with ⟨fi, hfi, _⟩
      rcases List.mem_filter.mp hfi with ⟨hfm, hft⟩
      have := h fi (cfSizeGroups_sub cache g hg fi (Or.inl hfm))
      rw [this] at hft
      cases hft
    · rcases List.mem_map.mp h1 with ⟨fi, hfi, _⟩
      rcases List.mem_filter.mp hfi with ⟨hfm, hft⟩
      have := h fi (cfSizeGroups_sub cache g hg fi (Or.inr hfm))
      rw [this] at hft
      cases hft
  · rw [if_neg hcond] at hin
    cases hin

/-- C4 as amended: detect_duplicates (the phase that re-stats files)
recomputes and overwrites the record of any scanned collision-group file
whose cached size/mtime no longer match, but the cross-folder phase
consults only the cached records: when every record already holds a hash
it performs no recomputation at all — a file whose mtime changed after
Phase A silently keeps its stale hash there. -/
theorem c4_amended_recompute_phaseA_only :
    (∀ (hashFn : String → String) (folder : String) (cache : List CachedFile)
        (files : List FileMetadata) (f : FileMetadata),
      (files.map (fun x => x.path)).Nodup → f ∈ files →
      2 ≤ (files.filter (fun g => g.size = f.size)).length →
      (∀ c, getFromCache cache f.path folder = some c →
        ¬(c.file_size = f.size ∧ c.file_mtime = f.mtime)) →
      ¬hashFn f.path = "" →
      getFromCache (detectDuplicates hashFn folder cache files).2.cache f.path folder =
        some (computedRec f folder (hashFn f.path))) ∧
    (∀ (hashFn : String → String) (pathExists : String → Bool) (cache : List CachedFile),
      (∀ r ∈ cache, hashTruthy r.file_hash = true) →
      (findCrossFolderDuplicates hashFn pathExists cache).2 = cache) := by
  constructor
  · intro hashFn folder cache files f hnd hf hcol hstale hok
    have hne : files ≠ [] := List.ne_nil_of_mem hf
    rw [detectDuplicates_of_ne_nil hashFn folder cache files hne]
    exact (detectLoop_track hashFn folder cache files f hnd hf hcol hstale).2 hok
  · intro hashFn pathExists cache h
    show cfHashedCache hashFn pathExists cache = cache
    rw [cfHashedCache, cfFilesToHash_nil cache h]
    rfl

/-- Witness for C4's amended statement: a changed file is recomputed by
detect_duplicates (its record is overwritten with the fresh hash), and a
fully hashed cache passes through the cross-folder phase untouched. -/
theorem c4_amended_witness :
    (([⟨"/x/f1", 50, 9⟩, ⟨"/x/f2", 50, 2⟩] : List FileMetadata).map
        (fun x => x.path)).Nodup ∧
    (⟨"/x/f1", 50, 9⟩ : FileMetadata) ∈
      ([⟨"/x/f1", 50, 9⟩, ⟨"/x/f2", 50, 2⟩] : List FileMetadata) ∧
    2 ≤ (([⟨"/x/f1", 50, 9⟩, ⟨"/x/f2", 50, 2⟩] : List FileMetadata).filter
      (fun g => g.size = (⟨"/x/f1", 50, 9⟩ : FileMetadata).size)).length ∧
    (¬((fun _ : String => "hNew") "/x/f1" = "")) ∧
    getFromCache
        (detectDuplicates (fun _ => "hNew") "input"
          [⟨"/x/f1", "input", some "hOld", some "full", none, 50, 1⟩]
          [⟨"/x/f1", 50, 9⟩, ⟨"/x/f2", 50, 2⟩]).2.cache "/x/f1" "input" =
      some (computedRec ⟨"/x/f1", 50, 9⟩ "input" ((fun _ : String => "hNew") "/x/f1")) :=
  ⟨by decide, by decide, by decide, by decide,
   (c4_amended_recompute_phaseA_only.1 (fun _ => "hNew") "input"
     [⟨"/x/f1", "input", some "hOld", some "full", none, 50, 1⟩]
     [⟨"/x/f1", 50, 9⟩, ⟨"/x/f2", 50, 2⟩] ⟨"/x/f1", 50, 9⟩
     (by decide) (by decide) (by decide)
     (by
       intro c hc
       rw [show getFromCache
           [⟨"/x/f1", "input", some "hOld", some "full", none, 50, 1⟩]
           "/x/f1" "input" =
           some ⟨"/x/f1", "input", some "hOld", some "full", none, 50, 1⟩ from by decide]
         at hc
       rcases Option.some.inj hc with rfl
       decide)
     (by decide))⟩

theorem cfHashFold_members (l : List CachedFile)
    (hg0 : List (String × List CachedFile)) (S : CachedFile → Prop)
    (h0 : ∀ g ∈ hg0, ∀ x ∈ g.2, S x) (hl : ∀ x ∈ l, S x) :
    ∀ g ∈ l.foldl (fun hg fi =>
        if hashTruthy fi.file_hash then upsertAppend (fi.file_hash.getD "") fi hg
        else hg) hg0,
      ∀ x ∈ g.2, S x := by
  induction l generalizing hg0 with
  | nil => exact h0
  | cons fi rest ih =>
    rw [List.foldl_cons]
    refine ih _ ?_ (fun x hx => hl x (List.mem_cons_of_mem fi hx))
    by_cases ht : hashTruthy fi.file_hash = true
    · rw [if_pos ht]
      intro g hg x hx
      rcases mem_upsertAppend (fi.file_hash.getD "") fi hg0 g hg x hx with
        ⟨g0, hg0m, hxg0⟩ | hv
      · exact h0 g0 hg0m x hxg0
      · exact hv ▸ hl fi (List.mem_cons_self fi rest)
    · rw [if_neg ht]
      exact h0

theorem cfHashGroupsOf_members (allFiles : List CachedFile) :
    ∀ g ∈ cfHashGroupsOf allFiles, ∀ x ∈ g.2, x ∈ allFiles := by
  rw [cfHashGroupsOf]
  exact cfHashFold_members allFiles [] (fun x => x ∈ allFiles)
    (fun g hg => absurd hg (List.not_mem_nil _)) (fun x hx => hx)

theorem cfCrossGroups_span (allFiles : List CachedFile) :
    ∀ g ∈ cfCrossGroups (cfHashGroupsOf allFiles),
      (∃ r ∈ allFiles, r.folder = "input" ∧ r.file_path ∈ g.files) ∧
      (∃ r ∈ allFiles, r.folder = "output" ∧ r.file_path ∈ g.files) := by
  intro g hg
  rw [cfCrossGroups] at hg
  rcases List.mem_map.mp hg with ⟨e, he, hge⟩
  rcases List.mem_filter.mp he with ⟨hein, hcond⟩
  rcases Bool.and_eq_true_iff.mp hcond with ⟨hival, hoval⟩
  rcases List.any_eq_true.mp hival with ⟨ri, hri, hrid⟩
  rcases List.any_eq_true.mp hoval with ⟨ro, hro, hrod⟩
  constructor
  · refine ⟨ri, cfHashGroupsOf_members allFiles e hein ri hri,
      of_decide_eq_true hrid, ?_⟩
    rw [← hge]
    exact List.mem_map.mpr ⟨ri, hri, rfl⟩
  · refine ⟨ro, cfHashGroupsOf_members allFiles e hein ro hro,
      of_decide_eq_true hrod, ?_⟩
    rw [← hge]
    exact List.mem_map.mpr ⟨ro, hro, rfl⟩

/-- C8: every duplicate group emitted by the cross-folder phase contains at
least one member whose cached record carries the `input` label and at
least one whose record carries the `output` label (both records live in
the phase's final cache); a single-label hash group is never emitted. -/
theorem c8_cross_folder_groups_span_both_labels (hashFn : String → String)
    (pathExists : String → Bool) (cache : List CachedFile) :
    ∀ g ∈ (findCrossFolderDuplicates hashFn pathExists cache).1,
      (∃ r ∈ (findCrossFolderDuplicates hashFn pathExists cache).2,
        r.folder = "input" ∧ r.file_path ∈ g.files) ∧
      (∃ r ∈ (findCrossFolderDuplicates hashFn pathExists cache).2,
        r.folder = "output" ∧ r.file_path ∈ g.files) := by
  intro g hg
  have hsub : ∀ r ∈ ((if (cfFilesToHash cache).isEmpty
      then getAllForLabel cache "input"
      else getAllForLabel (cfHashedCache hashFn pathExists cache) "input") ++
      (if (cfFilesToHash cache).isEmpty
      then getAllForLabel cache "output"
      else getAllForLabel (cfHashedCache hashFn pathExists cache) "output")),
      r ∈ cfHashedCache hashFn pathExists cache := by
    intro r hr
    by_cases hemp : (cfFilesToHash cache).isEmpty = true
    · have hnil : cfFilesToHash cache = [] := List.isEmpty_iff.mp hemp
      have hcc : cfHashedCache hashFn pathExists cache = cache := by
        rw [cfHashedCache, hnil]
        rfl
      rw [hemp] at hr
      simp only [if_true] at hr
      rw [hcc]
      rcases List.mem_append.mp hr with h | h
      · exact List.mem_of_mem_filter h
      · exact List.mem_of_mem_filter h
    · rw [Bool.not_eq_true] at hemp
      rw [hemp] at hr
      simp only [Bool.false_eq_true, if_false] at hr
      rcases List.mem_append.mp hr with h | h
      · exact List.mem_of_mem_filter h
      · exact List.mem_of_mem_filter h
  have hspan := cfCrossGroups_span _ g hg
  rcases hspan with ⟨⟨ri, hri, hrif, hrip⟩, ⟨ro, hro, hrof, hrop⟩⟩
  exact ⟨⟨ri, hsub ri hri, hrif, hrip⟩, ⟨ro, hsub ro hro, hrof, hrop⟩⟩

/-- Witness for C8 at a concrete cache holding one input and one output
record sharing hash and size: the emitted group spans both labels. -/
theorem c8_witness :
    (⟨"h1", ["/in/a", "/out/b"], 100⟩ : DuplicateGroup) ∈
      (findCrossFolderDuplicates (fun _ => "h9") (fun _ => true)
        [⟨"/in/a", "input", some "h1", some "full", none, 100, 10⟩,
         ⟨"/out/b", "output", some "h1", some "full", none, 100, 5⟩]).1 ∧
    ((∃ r ∈ (findCrossFolderDuplicates (fun _ => "h9") (fun _ => true)
        [⟨"/in/a", "input", some "h1", some "full", none, 100, 10⟩,
         ⟨"/out/b", "output", some "h1", some "full", none, 100, 5⟩]).2,
      r.folder = "input" ∧
        r.file_path ∈ (⟨"h1", ["/in/a", "/out/b"], 100⟩ : DuplicateGroup).files) ∧
     (∃ r ∈ (findCrossFolderDuplicates (fun _ => "h9") (fun _ => true)
        [⟨"/in/a", "input", some "h1", some "full", none, 100, 10⟩,
         ⟨"/out/b", "output", some "h1", some "full", none, 100, 5⟩]).2,
      r.folder = "output" ∧
        r.file_path ∈ (⟨"h1", ["/in/a", "/out/b"], 100⟩ : DuplicateGroup).files)) :=
  ⟨by decide,
   c8_cross_folder_groups_span_both_labels (fun _ => "h9") (fun _ => true)
     [⟨"/in/a", "input", some "h1", some "full", none, 100, 10⟩,
      ⟨"/out/b", "output", some "h1", some "full", none, 100, 5⟩]
     ⟨"h1", ["/in/a", "/out/b"], 100⟩ (by decide)⟩
